import Mathlib

/-!
Verification development for the `re` package (github.com/ghemawat/re):
regular-expression matching combined with fmt.Scan-like extraction of
sub-matches into caller-supplied destinations.

The embedding follows the current engine, `Scan` in re.go (the file that
declares `Span`, `Scan`, `ScanString`, `assign`): byte sequences are
`List Nat` (one entry per byte), the external regular-expression engine
(`regexp.FindSubmatchIndex`) is abstracted as a function from input bytes
to an optional list of `(start, end)` offset pairs — pair 0 is the whole
match, pairs 1.. are the capture groups, and `(-1, -1)` marks a group that
did not participate in the match.  Destination cells are modelled by the
value each destination ends up holding after the call (`none` = never
written).  Fallible parsing returns `Except`/`Option` values instead of Go
errors; the error taxonomy distinguishes the error kinds of the spec.

The numeric parser (`strconv.ParseInt`/`ParseUint` with base 0) and the
regexp matcher are host-library collaborators, not code of this
repository; they are modelled from the spec's description of them
(sign, then `0x`/`0X` prefix → hexadecimal, leading `0` → octal,
otherwise decimal; range check against the destination width).
Floating-point destinations (`*float32`/`*float64` in the source) are
outside every claim and are not modelled.
-/

/-- Error taxonomy of the assignment engine (spec §7).  `syntaxError` is the
spec's `InvalidNumber` (strconv `ErrSyntax`), `rangeError` is `OutOfRange`
(strconv `ErrRange` and the `"out of range for ..."` checks), `callbackErr`
is an opaque caller-supplied callback failure, identified by a code. -/
inductive ScanError where
  | notFound : ScanError
  | insufficientMatches (got need : Nat) : ScanError
  | syntaxError (b : List Nat) : ScanError
  | rangeError (b : List Nat) : ScanError
  | invalidBool (b : List Nat) : ScanError
  | unsupportedType (b : List Nat) : ScanError
  | callbackErr (code : Nat) : ScanError
deriving DecidableEq, Repr

/-- `Span` from re.go: starting and ending byte offsets of a capture group.
The source's field `End` is spelled `stop` here (`end` is reserved). -/
structure Span where
  start : Int
  stop : Int
deriving DecidableEq, Repr

/-- The destination kinds accepted by `Scan` (the type switch in `assign`):
`nil`, `func([]byte) error` (failure modelled by an opaque error code),
`*Span`, `*string`, `*[]byte`, the eleven integer pointer types, and the
default (unsupported) case.  Float destinations are not modelled. -/
inductive Dest where
  | discard : Dest
  | callback (f : List Nat → Option Nat) : Dest
  | span : Dest
  | str : Dest
  | bytes : Dest
  | intD : Dest
  | int8D : Dest
  | int16D : Dest
  | int32D : Dest
  | int64D : Dest
  | uintD : Dest
  | uintptrD : Dest
  | uint8D : Dest
  | uint16D : Dest
  | uint32D : Dest
  | uint64D : Dest
  | unsupported : Dest

/-- The value a destination cell holds after a successful write. -/
inductive Value where
  | ofSpan (s : Span) : Value
  | ofStr (b : List Nat) : Value
  | ofBytes (b : List Nat) : Value
  | ofInt (i : Int) : Value
  | ofNat (n : Nat) : Value
deriving DecidableEq, Repr

/-- Digit value of a byte, as strconv recognises digits:
`0`-`9`, `a`-`z`, `A`-`Z`. -/
def digitVal (c : Nat) : Option Nat :=
  if 48 ≤ c ∧ c ≤ 57 then some (c - 48)
  else if 97 ≤ c ∧ c ≤ 122 then some (c - 97 + 10)
  else if 65 ≤ c ∧ c ≤ 90 then some (c - 65 + 10)
  else none

/-- Accumulating digit parse: every byte must be a digit below `base`. -/
def parseDigitsAux (base : Nat) (acc : Nat) : List Nat → Option Nat
  | [] => some acc
  | c :: cs =>
    match digitVal c with
    | some d => if d < base then parseDigitsAux base (acc * base + d) cs else none
    | none => none

/-- Parse a non-empty run of digits in the given base. -/
def parseDigits (base : Nat) (l : List Nat) : Option Nat :=
  match l with
  | [] => none
  | _ => parseDigitsAux base 0 l

/-- Base selection for base-0 parsing, as the spec states it for the
numeric destinations: `0x`/`0X` prefix → hexadecimal (prefix consumed),
leading `0` → octal (kept, `0` is a valid octal digit), else decimal. -/
def basePrefix (l : List Nat) : Nat × List Nat :=
  match l with
  | c :: c2 :: rest =>
    if c = 48 then
      if c2 = 120 ∨ c2 = 88 then (16, rest) else (8, c :: c2 :: rest)
    else (10, c :: c2 :: rest)
  | [c] => if c = 48 then (8, [c]) else (10, [c])
  | [] => (10, [])

/-- Modelled from the spec: `strconv.ParseUint(string(b), 0, bitSize)` —
no sign, base chosen by prefix, result must fit in `bitSize` unsigned
bits; on invalid syntax the whole input is reported, on overflow the
range error is reported. -/
def goParseUint (b : List Nat) (bitSize : Nat) : Except ScanError Nat :=
  let p := basePrefix b
  match parseDigits p.1 p.2 with
  | none => .error (.syntaxError b)
  | some v => if v < 2 ^ bitSize then .ok v else .error (.rangeError b)

/-- Modelled from the spec: `strconv.ParseInt(string(b), 0, bitSize)` —
optional `+`/`-` sign, then an unsigned base-0 literal, range-checked
against the signed `bitSize`-bit range. -/
def goParseIntCore (b digits : List Nat) (neg : Bool) (bitSize : Nat) :
    Except ScanError Int :=
  let p := basePrefix digits
  match parseDigits p.1 p.2 with
  | none => .error (.syntaxError b)
  | some v =>
    if neg then
      if v > 2 ^ (bitSize - 1) then .error (.rangeError b) else .ok (-(v : Int))
    else
      if v ≥ 2 ^ (bitSize - 1) then .error (.rangeError b) else .ok (v : Int)

/-- Sign handling of `strconv.ParseInt`: strip one optional `+`/`-`, then
parse the magnitude and range-check it. -/
def goParseInt (b : List Nat) (bitSize : Nat) : Except ScanError Int :=
  match b with
  | c :: rest =>
    if c = 43 then goParseIntCore b rest false bitSize
    else if c = 45 then goParseIntCore b rest true bitSize
    else goParseIntCore b (c :: rest) false bitSize
  | [] => goParseIntCore [] [] false bitSize

/-- `int64(int(i))` on the modelled (64-bit) platform: two's-complement
wrap to 64 bits.  The guard `int64(int(i)) != i` in the source compares
`i` against this. -/
def wrap64 (i : Int) : Int := (i + 2 ^ 63) % 2 ^ 64 - 2 ^ 63

/-- `uint64(uint(u))` (and `uint64(uintptr(u))`) on the modelled 64-bit
platform. -/
def wrapU64 (u : Nat) : Nat := u % 2 ^ 64

/-- `assign` from re.go: dispatch one sub-match to one destination.
Returns the value written into the destination's cell (`none` when the
destination has no cell or nothing was stored) and the error, if any. -/
def assign (r : Dest) (b : List Nat) (s : Span) : Option Value × Option ScanError :=
  match r with
  | .discard => (none, none)
  | .callback f =>
    match f b with
    | some code => (none, some (.callbackErr code))
    | none => (none, none)
  | .span => (some (.ofSpan s), none)
  | .str => (some (.ofStr b), none)
  | .bytes => (some (.ofBytes b), none)
  | .intD =>
    match goParseInt b 64 with
    | .error e => (none, some e)
    | .ok i => if wrap64 i ≠ i then (none, some (.rangeError b)) else (some (.ofInt i), none)
  | .int8D =>
    match goParseInt b 8 with
    | .error e => (none, some e)
    | .ok i => (some (.ofInt i), none)
  | .int16D =>
    match goParseInt b 16 with
    | .error e => (none, some e)
    | .ok i => (some (.ofInt i), none)
  | .int32D =>
    match goParseInt b 32 with
    | .error e => (none, some e)
    | .ok i => (some (.ofInt i), none)
  | .int64D =>
    match goParseInt b 64 with
    | .error e => (none, some e)
    | .ok i => (some (.ofInt i), none)
  | .uintD =>
    match goParseUint b 64 with
    | .error e => (none, some e)
    | .ok u => if wrapU64 u ≠ u then (none, some (.rangeError b)) else (some (.ofNat u), none)
  | .uintptrD =>
    match goParseUint b 64 with
    | .error e => (none, some e)
    | .ok u => if wrapU64 u ≠ u then (none, some (.rangeError b)) else (some (.ofNat u), none)
  | .uint8D =>
    match goParseUint b 8 with
    | .error e => (none, some e)
    | .ok u => (some (.ofNat u), none)
  | .uint16D =>
    match goParseUint b 16 with
    | .error e => (none, some e)
    | .ok u => (some (.ofNat u), none)
  | .uint32D =>
    match goParseUint b 32 with
    | .error e => (none, some e)
    | .ok u => (some (.ofNat u), none)
  | .uint64D =>
    match goParseUint b 64 with
    | .error e => (none, some e)
    | .ok u => (some (.ofNat u), none)
  | .unsupported => (none, some (.unsupportedType b))

/-- `input[start:end]` for a valid pair. -/
def subslice (input : List Nat) (start stop : Int) : List Nat :=
  (input.take stop.toNat).drop start.toNat

/-- One iteration of the `Scan` loop at one destination: build the `Span`
from the offset pair, slice the sub-match when the pair is valid (the
source's `span.Start > -1 && span.End >= span.Start`; an absent group
leaves `submatch` nil, here `[]`), and dispatch through `assign`. -/
def step (input : List Nat) (p : Int × Int) (d : Dest) : Option Value × Option ScanError :=
  assign d (if p.1 > -1 ∧ p.2 ≥ p.1 then subslice input p.1 p.2 else []) ⟨p.1, p.2⟩

/-- The `for i, r := range output` loop of `Scan`: a single in-order pass,
stopping at the first error.  `ms` are the offset pairs of the capture
groups (pair 0 already skipped).  Returns the cell contents of every
destination (`none` = never written) and the first error. -/
def scanLoop (input : List Nat) : List (Int × Int) → List Dest → List (Option Value) × Option ScanError
  | _, [] => ([], none)
  | [], _ :: ds => (none :: ds.map (fun _ => none), none)
  | p :: ps, d :: ds =>
    match step input p d with
    | (w, some e) => (w :: ds.map (fun _ => none), some e)
    | (w, none) =>
      let r := scanLoop input ps ds
      (w :: r.1, r.2)

/-- The body of `Scan` given the matcher's answer: `nil` matches →
`NotFound`; fewer capture groups than destinations → the
insufficient-matches error (reporting `len(matches)/2-1` groups available
against `len(output)` requested); otherwise the assignment loop. -/
def scanMatches (mr : Option (List (Int × Int))) (input : List Nat)
    (output : List Dest) : List (Option Value) × Option ScanError :=
  match mr with
  | none => (output.map (fun _ => none), some .notFound)
  | some ms =>
    if ms.length < 1 + output.length then
      (output.map (fun _ => none), some (.insufficientMatches (ms.length - 1) output.length))
    else
      scanLoop input ms.tail output

/-- A compiled pattern, abstracted to the one capability `Scan` uses:
`FindSubmatchIndex` (spec §4.1), here giving the offset pairs unflattened. -/
def Pattern : Type := List Nat → Option (List (Int × Int))

/-- `Scan` from re.go. -/
def Scan (re : Pattern) (input : List Nat) (output : List Dest) :
    List (Option Value) × Option ScanError :=
  scanMatches (re input) input output

/-- A Go string: an immutable sequence of bytes. -/
structure GoString where
  bytes : List Nat

/-- `[]byte(input)`: the byte contents of a string (a fresh copy in Go,
contents-identical). -/
def goStringBytes (s : GoString) : List Nat := s.bytes

/-- `ScanString` from re.go: matches against a string rather than a byte
array, by converting and delegating to `Scan`. -/
def ScanString (re : Pattern) (input : GoString) (output : List Dest) :
    List (Option Value) × Option ScanError :=
  Scan re (goStringBytes input) output

/-- ASCII lower-casing of one byte. -/
def asciiLower (c : Nat) : Nat := if 65 ≤ c ∧ c ≤ 90 then c + 32 else c

/-- `bytes.EqualFold` as it behaves on the call sites of `parseBool`:
the patterns compared against (`"false"`, `"true"`) are pure ASCII and the
candidate's byte length is already pinned to the pattern's, so Unicode
simple folding coincides with per-byte ASCII folding (every non-ASCII
folding partner of an ASCII letter is a multi-byte rune, excluded by the
length guard). -/
def equalFoldAscii (a b : List Nat) : Bool := a.map asciiLower == b.map asciiLower

/-- The bytes of `"false"`. -/
def falseBytes : List Nat := [102, 97, 108, 115, 101]

/-- The bytes of `"true"`. -/
def trueBytes : List Nat := [116, 114, 117, 101]

/-- `parseBool` from the engine revision that supports boolean
destinations: `"0"`/`"1"`, or case-insensitive `"false"`/`"true"` after a
length check; anything else is the invalid-boolean error.  The source
writes through `*bool`; the stored value is returned here. -/
def parseBool (b : List Nat) : Except ScanError Bool :=
  if b.length = 1 ∧ b.headD 0 = 48 then .ok false
  else if b.length = 1 ∧ b.headD 0 = 49 then .ok true
  else if b.length = 5 ∧ equalFoldAscii b falseBytes then .ok false
  else if b.length = 4 ∧ equalFoldAscii b trueBytes then .ok true
  else .error (.invalidBool b)

/-- Decimal digits, fuel-bounded so the recursion is structural (the fuel
argument only bounds the digit count; `natToDec` supplies enough). -/
def natToDecAux : Nat → Nat → List Nat
  | 0, _ => []
  | fuel + 1, n =>
    if n < 10 then [48 + n] else natToDecAux fuel (n / 10) ++ [48 + n % 10]

/-- Decimal digits of a natural number, most significant first, as ASCII
bytes (`strconv.FormatInt` base 10 output for non-negative values). -/
def natToDec (n : Nat) : List Nat := natToDecAux (n + 1) n

/-- The fuel is irrelevant once it exceeds the value. -/
theorem natToDecAux_congr :
    ∀ (f1 f2 n : Nat), n < f1 → n < f2 → natToDecAux f1 n = natToDecAux f2 n := by
  intro f1
  induction f1 with
  | zero => intro f2 n h1; omega
  | succ f1 ih =>
    intro f2 n h1 h2
    cases f2 with
    | zero => omega
    | succ f2 =>
      simp only [natToDecAux]
      by_cases h : n < 10
      · rw [if_pos h, if_pos h]
      · rw [if_neg h, if_neg h, ih f2 (n / 10) (by omega) (by omega)]

/-- The recursive unfolding of `natToDec`. -/
theorem natToDec_eq (n : Nat) :
    natToDec n = if n < 10 then [48 + n] else natToDec (n / 10) ++ [48 + n % 10] := by
  show natToDecAux (n + 1) n = _
  simp only [natToDecAux]
  by_cases h : n < 10
  · rw [if_pos h, if_pos h]
  · rw [if_neg h, if_neg h,
      natToDecAux_congr n (n / 10 + 1) (n / 10) (by omega) (by omega)]
    rfl

/-- Decimal text of an integer: optional minus sign and the digits. -/
def intToDec (i : Int) : List Nat :=
  if i < 0 then 45 :: natToDec i.natAbs else natToDec i.toNat

/-- The unsigned integer destination kinds (`*uint`, `*uintptr`,
`*uint8`, `*uint16`, `*uint32`, `*uint64`). -/
def isUnsignedDest : Dest → Bool
  | .uintD => true
  | .uintptrD => true
  | .uint8D => true
  | .uint16D => true
  | .uint32D => true
  | .uint64D => true
  | _ => false

/-- Base selection in the spec's words: "a `0x` or `0X` prefix selects
hexadecimal, a leading `0` selects octal, and anything else is decimal". -/
def specBase (b : List Nat) : Nat :=
  if b.take 2 = [48, 120] ∨ b.take 2 = [48, 88] then 16
  else if b.head? = some 48 then 8 else 10

/-- The magnitude of a base-prefixed integer literal, in the spec's
reading: digits interpreted in the selected base, the hexadecimal prefix
consumed first; `none` when the literal is syntactically invalid. -/
def parseLitNat (body : List Nat) : Option Nat :=
  parseDigits (specBase body) (if specBase body = 16 then body.drop 2 else body)

/-- The value of a signed base-prefixed integer literal in the spec's
reading: optional sign, then the magnitude. -/
def litVal (b : List Nat) : Option Int :=
  match b.head? with
  | some c =>
    if c = 45 then (parseLitNat (b.drop 1)).map (fun v => -(Int.ofNat v))
    else if c = 43 then (parseLitNat (b.drop 1)).map (fun v => Int.ofNat v)
    else (parseLitNat b).map (fun v => Int.ofNat v)
  | none => (parseLitNat b).map (fun v => Int.ofNat v)

/-- No destination both stores a value and fails: every error path of
`assign` leaves the cell untouched. -/
theorem assign_disjoint (d : Dest) (b : List Nat) (s : Span) :
    (assign d b s).1 = none ∨ (assign d b s).2 = none := by
  cases d <;> simp only [assign]
  case callback f => cases f b <;> simp
  case intD => rcases goParseInt b 64 with e | i <;> simp <;> split <;> simp
  case int8D => rcases goParseInt b 8 with e | i <;> simp
  case int16D => rcases goParseInt b 16 with e | i <;> simp
  case int32D => rcases goParseInt b 32 with e | i <;> simp
  case int64D => rcases goParseInt b 64 with e | i <;> simp
  case uintD => rcases goParseUint b 64 with e | u <;> simp <;> split <;> simp
  case uintptrD => rcases goParseUint b 64 with e | u <;> simp <;> split <;> simp
  case uint8D => rcases goParseUint b 8 with e | u <;> simp
  case uint16D => rcases goParseUint b 16 with e | u <;> simp
  case uint32D => rcases goParseUint b 32 with e | u <;> simp
  case uint64D => rcases goParseUint b 64 with e | u <;> simp
  all_goals simp

/-- The strconv model only fails with the syntax or the range error,
always carrying the offending bytes. -/
theorem goParseUint_error (b : List Nat) (w : Nat) (e : ScanError)
    (h : goParseUint b w = .error e) :
    e = .syntaxError b ∨ e = .rangeError b := by
  simp only [goParseUint] at h
  split at h
  · left; exact (Except.error.injEq _ _).mp h.symm |>.symm ▸ rfl
  · split at h
    · exact absurd h (by simp)
    · right; cases h; rfl

/-- Signed variant of `goParseUint_error`, magnitude part. -/
theorem goParseIntCore_error (B digits : List Nat) (neg : Bool) (w : Nat) (e : ScanError)
    (h : goParseIntCore B digits neg w = .error e) :
    e = .syntaxError B ∨ e = .rangeError B := by
  simp only [goParseIntCore] at h
  split at h
  · left; cases h; rfl
  · split at h <;> split at h <;> first
      | (right; cases h; rfl)
      | exact absurd h (by simp)

/-- Signed variant of `goParseUint_error`. -/
theorem goParseInt_error (b : List Nat) (w : Nat) (e : ScanError)
    (h : goParseInt b w = .error e) :
    e = .syntaxError b ∨ e = .rangeError b := by
  cases b with
  | nil =>
    simp only [goParseInt] at h
    exact goParseIntCore_error _ _ _ _ _ h
  | cons c rest =>
    simp only [goParseInt] at h
    split at h
    · exact goParseIntCore_error _ _ _ _ _ h
    · split at h
      · exact goParseIntCore_error _ _ _ _ _ h
      · exact goParseIntCore_error _ _ _ _ _ h

/-- The loop produces one cell per destination. -/
theorem scanLoop_length (input : List Nat) :
    ∀ (ps : List (Int × Int)) (ds : List Dest),
      (scanLoop input ps ds).1.length = ds.length := by
  intro ps ds
  induction ds generalizing ps with
  | nil => cases ps <;> simp [scanLoop]
  | cons d ds ih =>
    cases ps with
    | nil => simp [scanLoop]
    | cons p ps =>
      rcases hstep : step input p d with ⟨w, e⟩
      cases e <;> simp [scanLoop, hstep, ih]

/-- When the loop succeeds, every destination was processed in order and
its cell holds exactly what its own `step` produced. -/
theorem scanLoop_ok (input : List Nat) :
    ∀ (ds : List Dest) (ps : List (Int × Int)),
      (scanLoop input ps ds).2 = none →
      ∀ (i : Nat) (p : Int × Int) (d : Dest),
        ps.get? i = some p → ds.get? i = some d →
        (step input p d).2 = none ∧
          (scanLoop input ps ds).1.get? i = some (step input p d).1 := by
  intro ds
  induction ds with
  | nil => intro ps _ i p d _ hd; simp at hd
  | cons d0 ds ih =>
    intro ps hok i p d hp hd
    cases ps with
    | nil => simp at hp
    | cons p0 ps =>
      rcases hstep : step input p0 d0 with ⟨w, e⟩
      cases e with
      | some e0 => simp [scanLoop, hstep] at hok
      | none =>
        have hrec : (scanLoop input ps ds).2 = none := by
          simpa [scanLoop, hstep] using hok
        cases i with
        | zero =>
          simp only [List.get?] at hp hd
          cases hp; cases hd
          constructor
          · rw [hstep]
          · simp [scanLoop, hstep]
        | succ j =>
          simp only [List.get?] at hp hd
          have := ih ps hrec j p d hp hd
          refine ⟨this.1, ?_⟩
          simpa [scanLoop, hstep] using this.2

/-- When the loop fails, there is a first failing position `k`: every
earlier destination was processed and keeps its written value, position
`k`'s own `step` produced the returned error, and every cell from `k` on
(the failing one included) was never written. -/
theorem scanLoop_err (input : List Nat) :
    ∀ (ds : List Dest) (ps : List (Int × Int)) (e : ScanError),
      (scanLoop input ps ds).2 = some e →
      ∃ k p d, k < ds.length ∧ ps.get? k = some p ∧ ds.get? k = some d ∧
        (step input p d).2 = some e ∧
        (∀ (i : Nat) (q : Int × Int) (d' : Dest), i < k →
          ps.get? i = some q → ds.get? i = some d' →
          (step input q d').2 = none ∧
            (scanLoop input ps ds).1.get? i = some (step input q d').1) ∧
        (∀ i : Nat, k ≤ i → i < ds.length →
          (scanLoop input ps ds).1.get? i = some none) := by
  intro ds
  induction ds with
  | nil => intro ps e h; simp [scanLoop] at h
  | cons d0 ds ih =>
    intro ps e h
    cases ps with
    | nil => simp [scanLoop] at h
    | cons p0 ps =>
      rcases hstep : step input p0 d0 with ⟨w, e'⟩
      cases e' with
      | some e0 =>
        have he : e0 = e := by simpa [scanLoop, hstep] using h
        subst he
        refine ⟨0, p0, d0, by simp, rfl, rfl, by rw [hstep], ?_, ?_⟩
        · intro i q d' hik; exact absurd hik (Nat.not_lt_zero i)
        · intro i _ hilen
          have hw : w = none := by
            rcases assign_disjoint d0
                (if p0.1 > -1 ∧ p0.2 ≥ p0.1 then subslice input p0.1 p0.2 else [])
                ⟨p0.1, p0.2⟩ with h1 | h2
            · rw [step] at hstep; rw [hstep] at h1; exact h1
            · rw [step] at hstep; rw [hstep] at h2; simp at h2
          subst hw
          cases i with
          | zero => simp [scanLoop, hstep]
          | succ j =>
            simp only [List.length_cons] at hilen
            simp [scanLoop, hstep, List.get?_map,
              (by omega : j < ds.length)]
      | none =>
        have hrec : (scanLoop input ps ds).2 = some e := by
          simpa [scanLoop, hstep] using h
        obtain ⟨k, p, d, hk, hp, hd, hke, hbefore, hafter⟩ := ih ps e hrec
        refine ⟨k + 1, p, d, by simpa using Nat.succ_lt_succ hk, hp, hd, hke, ?_, ?_⟩
        · intro i q d' hik hq hd'
          cases i with
          | zero =>
            simp only [List.get?] at hq hd'
            cases hq; cases hd'
            exact ⟨by rw [hstep], by simp [scanLoop, hstep]⟩
          | succ j =>
            simp only [List.get?] at hq hd'
            have := hbefore j q d' (by omega) hq hd'
            exact ⟨this.1, by simpa [scanLoop, hstep] using this.2⟩
        · intro i hki hilen
          cases i with
          | zero => omega
          | succ j =>
            simp only [List.length_cons] at hilen
            have := hafter j (by omega) (by omega)
            simpa [scanLoop, hstep] using this

/-- Setting position `j` does not change the first `j` elements. -/
theorem take_set_self {α : Type} :
    ∀ (l : List α) (j : Nat) (a : α), (l.set j a).take j = l.take j := by
  intro l
  induction l with
  | nil => intro j a; simp
  | cons x xs ih =>
    intro j a
    cases j with
    | zero => simp
    | succ j' => simp [List.set, ih xs.length, ih]

/-- Mapping a constant only depends on the length. -/
theorem map_const_congr {α β : Type} (c : β) :
    ∀ (l1 l2 : List α), l1.length = l2.length →
      l1.map (fun _ => c) = l2.map (fun _ => c) := by
  intro l1
  induction l1 with
  | nil => intro l2 h; cases l2 <;> simp_all
  | cons x xs ih =>
    intro l2 h
    cases l2 with
    | nil => simp at h
    | cons y ys => simpa using ih ys (by simpa using h)

/-- If the loop already fails on the first `j` destinations, the
destinations from `j` on are irrelevant: the full run returns the same
error, the same written prefix, and leaves everything else untouched. -/
theorem scanLoop_prefix_err (input : List Nat) :
    ∀ (ds : List Dest) (j : Nat) (ps : List (Int × Int)) (e : ScanError),
      (scanLoop input ps (ds.take j)).2 = some e →
      scanLoop input ps ds =
        ((scanLoop input ps (ds.take j)).1 ++ (ds.drop j).map (fun _ => none), some e) := by
  intro ds
  induction ds with
  | nil => intro j ps e h; simp [scanLoop] at h
  | cons d0 ds ih =>
    intro j ps e h
    cases j with
    | zero => simp [scanLoop] at h
    | succ j' =>
      cases ps with
      | nil => simp [scanLoop] at h
      | cons p0 ps =>
        rcases hstep : step input p0 d0 with ⟨w, e'⟩
        cases e' with
        | some e0 =>
          have he : e0 = e := by simpa [scanLoop, hstep] using h
          subst he
          have hm : List.map (fun _ => (none : Option Value)) (List.take j' ds) ++
              List.map (fun _ => (none : Option Value)) (List.drop j' ds) =
              List.map (fun _ => (none : Option Value)) ds := by
            rw [← List.map_append, List.take_append_drop]
          simp only [List.take_succ_cons, List.drop_succ_cons]
          simp only [scanLoop, hstep]
          rw [List.cons_append, hm]
        | none =>
          have hrec : (scanLoop input ps (ds.take j')).2 = some e := by
            simpa [scanLoop, hstep] using h
          have := ih j' ps e hrec
          simp only [List.take_succ_cons, List.drop_succ_cons]
          simp [scanLoop, hstep, this]

/-- Replacing one destination of a successful run by the discard marker
keeps the run successful and only blanks that one cell. -/
theorem scanLoop_set_discard (input : List Nat) :
    ∀ (ds : List Dest) (ps : List (Int × Int)) (j : Nat),
      (scanLoop input ps ds).2 = none →
      scanLoop input ps (ds.set j .discard) =
        ((scanLoop input ps ds).1.set j none, none) := by
  intro ds
  induction ds with
  | nil => intro ps j _; cases ps <;> simp [scanLoop]
  | cons d0 ds ih =>
    intro ps j hok
    cases ps with
    | nil =>
      cases j with
      | zero => simp [scanLoop]
      | succ j' => simp [scanLoop, List.map_set]
    | cons p0 ps =>
      rcases hstep : step input p0 d0 with ⟨w, e'⟩
      cases e' with
      | some e0 => simp [scanLoop, hstep] at hok
      | none =>
        have hrec : (scanLoop input ps ds).2 = none := by
          simpa [scanLoop, hstep] using hok
        cases j with
        | zero =>
          have hdisc : step input p0 Dest.discard = (none, none) := rfl
          simp [scanLoop, hstep, hdisc, hrec]
        | succ j' =>
          have := ih ps j' hrec
          simp [scanLoop, hstep, this]

/-- Replacing destination `j` (by anything) never changes the cells
written before position `j`. -/
theorem scanLoop_set_take (input : List Nat) :
    ∀ (ds : List Dest) (ps : List (Int × Int)) (j : Nat) (d' : Dest),
      (scanLoop input ps (ds.set j d')).1.take j = (scanLoop input ps ds).1.take j := by
  intro ds
  induction ds with
  | nil => intro ps j d'; simp
  | cons d0 ds ih =>
    intro ps j d'
    cases j with
    | zero => simp
    | succ j' =>
      cases ps with
      | nil => simp [scanLoop, List.map_set, take_set_self]
      | cons p0 ps =>
        rcases hstep : step input p0 d0 with ⟨w, e'⟩
        cases e' with
        | some e0 => simp [scanLoop, hstep, List.map_set, take_set_self]
        | none => simp [scanLoop, hstep, ih]

/-- Digit parsing distributes over append. -/
theorem parseDigitsAux_append (base : Nat) :
    ∀ (xs ys : List Nat) (acc : Nat),
      parseDigitsAux base acc (xs ++ ys) =
        match parseDigitsAux base acc xs with
        | some a => parseDigitsAux base a ys
        | none => none := by
  intro xs
  induction xs with
  | nil => intro ys acc; simp [parseDigitsAux]
  | cons c cs ih =>
    intro ys acc
    simp only [List.cons_append, parseDigitsAux]
    rcases digitVal c with _ | d
    · rfl
    · by_cases hd : d < base
      · simp only [if_pos hd]; exact ih ys _
      · simp [if_neg hd]

/-- The decimal digits of `n` start with an ASCII digit, nonzero when
`n` is nonzero. -/
theorem natToDec_shape (n : Nat) :
    ∃ c t, natToDec n = c :: t ∧ 48 ≤ c ∧ c ≤ 57 ∧ (0 < n → 48 < c) := by
  induction n using Nat.strong_induction_on with
  | _ n ih =>
    by_cases h : n < 10
    · refine ⟨48 + n, [], ?_, by omega, by omega, by omega⟩
      rw [natToDec_eq, if_pos h]
    · obtain ⟨c, t, hshape, h1, h2, h3⟩ :=
        ih (n / 10) (Nat.div_lt_self (by omega) (by omega))
      refine ⟨c, t ++ [48 + n % 10], ?_, h1, h2, fun _ => ?_⟩
      · rw [natToDec_eq, if_neg h, hshape]; rfl
      · exact h3 (by omega)

/-- Parsing the decimal digits of `n` in base 10 recovers `n`. -/
theorem parseDigitsAux_natToDec (n : Nat) :
    ∀ acc, parseDigitsAux 10 acc (natToDec n) =
      some (acc * 10 ^ (natToDec n).length + n) := by
  induction n using Nat.strong_induction_on with
  | _ n ih =>
    intro acc
    by_cases h : n < 10
    · rw [natToDec_eq, if_pos h]
      simp only [parseDigitsAux, digitVal]
      rw [if_pos (by omega : 48 ≤ 48 + n ∧ 48 + n ≤ 57)]
      simp only [if_pos (by omega : 48 + n - 48 < 10), parseDigitsAux]
      congr 1
      simp only [List.length_singleton, pow_one]
      omega
    · rw [natToDec_eq, if_neg h]
      rw [parseDigitsAux_append]
      rw [ih (n / 10) (Nat.div_lt_self (by omega) (by omega)) acc]
      simp only [parseDigitsAux, digitVal]
      rw [if_pos (by omega : 48 ≤ 48 + n % 10 ∧ 48 + n % 10 ≤ 57)]
      simp only [if_pos (by omega : 48 + n % 10 - 48 < 10), parseDigitsAux]
      congr 1
      rw [List.length_append, List.length_singleton, pow_succ]
      have hmod : n % 10 < 10 := Nat.mod_lt _ (by omega)
      have hdm := Nat.div_add_mod n 10
      set L := (natToDec (n / 10)).length
      have : 48 + n % 10 - 48 = n % 10 := by omega
      rw [this]
      ring_nf
      omega

/-- `parseDigits` round trip for decimal text. -/
theorem parseDigits_natToDec (n : Nat) : parseDigits 10 (natToDec n) = some n := by
  obtain ⟨c, t, hshape, -, -, -⟩ := natToDec_shape n
  have haux := parseDigitsAux_natToDec n 0
  rw [hshape] at haux ⊢
  simp only [parseDigits]
  rw [haux]
  simp

/-- Positive decimal text has no `0`, `0x` or sign prefix: base 10 is
selected and nothing is stripped. -/
theorem basePrefix_natToDec (n : Nat) (h : 0 < n) :
    basePrefix (natToDec n) = (10, natToDec n) := by
  obtain ⟨c, t, hshape, h1, h2, h3⟩ := natToDec_shape n
  have hc := h3 h
  rw [hshape]
  cases t with
  | nil =>
    simp only [basePrefix]
    rw [if_neg (by omega : ¬ c = 48)]
  | cons c2 t' =>
    simp only [basePrefix]
    rw [if_neg (by omega : ¬ c = 48)]

/-- `strconv.ParseUint` on the decimal text of a positive value: the value
itself, range-checked. -/
theorem goParseUint_natToDec_core (m w : Nat) (hm : 0 < m) :
    goParseUint (natToDec m) w =
      if m < 2 ^ w then .ok m else .error (.rangeError (natToDec m)) := by
  simp only [goParseUint, basePrefix_natToDec m hm, parseDigits_natToDec]

/-- The decimal text of `0`. -/
theorem natToDec_zero : natToDec 0 = [48] := rfl

/-- `strconv.ParseUint` on `"0"`. -/
theorem goParseUint_zero (w : Nat) : goParseUint (natToDec 0) w = .ok 0 := by
  rw [natToDec_zero]
  show (if 0 < 2 ^ w then (Except.ok 0 : Except ScanError Nat)
    else .error (.rangeError [48])) = .ok 0
  rw [if_pos (pow_pos (by norm_num) w)]

/-- `strconv.ParseInt` on the decimal text of a positive value. -/
theorem goParseIntCore_dec (B : List Nat) (m w : Nat) (neg : Bool) (hm : 0 < m) :
    goParseIntCore B (natToDec m) neg w =
      if neg then
        (if m > 2 ^ (w - 1) then .error (.rangeError B) else .ok (-(m : Int)))
      else
        (if m ≥ 2 ^ (w - 1) then .error (.rangeError B) else .ok (m : Int)) := by
  simp only [goParseIntCore, basePrefix_natToDec m hm, parseDigits_natToDec]

theorem goParseInt_natToDec_core (m w : Nat) (hm : 0 < m) :
    goParseInt (natToDec m) w =
      if m ≥ 2 ^ (w - 1) then .error (.rangeError (natToDec m)) else .ok (m : Int) := by
  obtain ⟨c, t, hshape, h1, h2, h3⟩ := natToDec_shape m
  have hc := h3 hm
  rw [hshape]
  simp only [goParseInt]
  rw [if_neg (by omega : ¬ c = 43), if_neg (by omega : ¬ c = 45), ← hshape]
  rw [goParseIntCore_dec (natToDec m) m w false hm]
  simp

/-- `strconv.ParseInt` on `"0"`. -/
theorem goParseInt_zero (w : Nat) : goParseInt (natToDec 0) w = .ok 0 := by
  rw [natToDec_zero]
  show (if (0:Nat) ≥ 2 ^ (w - 1) then (Except.error (.rangeError [48]) : Except ScanError Int)
    else .ok ((0 : Nat) : Int)) = .ok 0
  rw [if_neg (by simpa using pow_pos (by norm_num : (0:Nat) < 2) (w - 1))]
  norm_num

/-- `strconv.ParseInt` on a minus sign followed by positive decimal text. -/
theorem goParseInt_negDec_core (m w : Nat) (hm : 0 < m) :
    goParseInt (45 :: natToDec m) w =
      if m > 2 ^ (w - 1) then .error (.rangeError (45 :: natToDec m)) else .ok (-(m : Int)) := by
  simp only [goParseInt]
  rw [if_neg (by norm_num : ¬ (45:Nat) = 43)]
  simp only [if_true]
  rw [goParseIntCore_dec (45 :: natToDec m) m w true hm]
  simp

/-- Decimal text of a non-negative integer. -/
theorem intToDec_nonneg (i : Int) (h : 0 ≤ i) : intToDec i = natToDec i.toNat := by
  rw [intToDec, if_neg (by omega)]

/-- Decimal text of a negative integer. -/
theorem intToDec_neg (i : Int) (h : i < 0) : intToDec i = 45 :: natToDec i.natAbs := by
  rw [intToDec, if_pos h]

/-- Numeric round trip, signed: parsing the decimal text of any value in
the signed `w`-bit range recovers the value. -/
theorem goParseInt_roundtrip (i : Int) (w : Nat)
    (hlo : -(2 ^ (w - 1) : Int) ≤ i) (hhi : i < (2 ^ (w - 1) : Int)) :
    goParseInt (intToDec i) w = .ok i := by
  rcases lt_trichotomy i 0 with hn | hz | hp
  · rw [intToDec_neg i hn]
    have hm : 0 < i.natAbs := by omega
    rw [goParseInt_negDec_core i.natAbs w hm]
    have hle : i.natAbs ≤ 2 ^ (w - 1) := by
      have h1 : ((2 ^ (w - 1) : Nat) : Int) = (2 ^ (w - 1) : Int) := by push_cast; ring
      have h2 : (0:Int) < 2 ^ (w - 1) := by positivity
      omega
    rw [if_neg (by omega)]
    congr 1
    omega
  · subst hz
    rw [intToDec_nonneg 0 le_rfl]
    exact goParseInt_zero w
  · rw [intToDec_nonneg i hp.le]
    have hm : 0 < i.toNat := by omega
    rw [goParseInt_natToDec_core i.toNat w hm]
    have hlt : i.toNat < 2 ^ (w - 1) := by
      have h1 : ((2 ^ (w - 1) : Nat) : Int) = (2 ^ (w - 1) : Int) := by push_cast; ring
      have h2 : (0:Int) < 2 ^ (w - 1) := by positivity
      omega
    rw [if_neg (by omega)]
    congr 1
    omega

/-- Numeric round trip, unsigned. -/
theorem goParseUint_roundtrip (v w : Nat) (h : v < 2 ^ w) :
    goParseUint (natToDec v) w = .ok v := by
  rcases Nat.eq_zero_or_pos v with hz | hp
  · subst hz; exact goParseUint_zero w
  · rw [goParseUint_natToDec_core v w hp, if_pos h]

/-- One unit above the unsigned range: the range error. -/
theorem goParseUint_over (w : Nat) :
    goParseUint (natToDec (2 ^ w)) w = .error (.rangeError (natToDec (2 ^ w))) := by
  rw [goParseUint_natToDec_core (2 ^ w) w (pow_pos (by norm_num) w)]
  simp

/-- One unit above the signed range: the range error. -/
theorem goParseInt_over (w : Nat) :
    goParseInt (intToDec (2 ^ (w - 1) : Int)) w =
      .error (.rangeError (intToDec (2 ^ (w - 1) : Int))) := by
  have hcast : ((2 ^ (w - 1) : Int)).toNat = 2 ^ (w - 1) := by
    have h1 : ((2 ^ (w - 1) : Nat) : Int) = (2 ^ (w - 1) : Int) := by push_cast; ring
    have h2 : (0:Int) < 2 ^ (w - 1) := by positivity
    omega
  rw [intToDec_nonneg _ (by positivity), hcast,
    goParseInt_natToDec_core (2 ^ (w - 1)) w (pow_pos (by norm_num) _), if_pos le_rfl]

/-- One unit below the signed range: the range error. -/
theorem goParseInt_under (w : Nat) :
    goParseInt (intToDec (-(2 ^ (w - 1) : Int) - 1)) w =
      .error (.rangeError (intToDec (-(2 ^ (w - 1) : Int) - 1))) := by
  have hneg : (-(2 ^ (w - 1) : Int) - 1) < 0 := by
    have : (0:Int) < 2 ^ (w - 1) := by positivity
    omega
  have habs : (-(2 ^ (w - 1) : Int) - 1).natAbs = 2 ^ (w - 1) + 1 := by
    have h1 : ((2 ^ (w - 1) : Nat) : Int) = (2 ^ (w - 1) : Int) := by push_cast; ring
    have h2 : (0:Int) < 2 ^ (w - 1) := by positivity
    omega
  rw [intToDec_neg _ hneg, habs,
    goParseInt_negDec_core (2 ^ (w - 1) + 1) w (by positivity), if_pos (by omega)]

/-- The platform-width re-narrowing check `int64(int(i)) != i` never fires
for an in-range 64-bit value. -/
theorem wrap64_eq (i : Int) (h1 : -(2 ^ 63 : Int) ≤ i) (h2 : i < 2 ^ 63) :
    wrap64 i = i := by
  have e1 : (2:Int) ^ 63 = 9223372036854775808 := by norm_num
  have e2 : (2:Int) ^ 64 = 18446744073709551616 := by norm_num
  unfold wrap64
  rw [e1, e2] at *
  rw [Int.emod_eq_of_lt (by omega) (by omega)]
  ring

/-- The `uint64(uint(u)) != u` check never fires for `u < 2^64`. -/
theorem wrapU64_eq (u : Nat) (h : u < 2 ^ 64) : wrapU64 u = u :=
  Nat.mod_eq_of_lt h

/-- Every error `assign` can produce: a parse error carrying the
sub-match, the unsupported-type error, or the callback's own failure —
never `notFound` or `insufficientMatches`. -/
theorem assign_err_shape (d : Dest) (b : List Nat) (s : Span) (e : ScanError)
    (h : (assign d b s).2 = some e) :
    e = .syntaxError b ∨ e = .rangeError b ∨ e = .unsupportedType b ∨
      ∃ code, e = .callbackErr code := by
  cases d <;> simp only [assign] at h
  case discard => simp at h
  case callback f =>
    rcases hf : f b with _ | code <;> rw [hf] at h <;> simp at h
    exact Or.inr (Or.inr (Or.inr ⟨code, h.symm⟩))
  case span => simp at h
  case str => simp at h
  case bytes => simp at h
  case intD =>
    rcases hp : goParseInt b 64 with e' | j <;> rw [hp] at h
    · simp at h; subst h
      rcases goParseInt_error b 64 _ hp with h' | h' <;> simp [h']
    · have h2 : (if wrap64 j ≠ j then ((none : Option Value), some (ScanError.rangeError b))
          else (some (Value.ofInt j), none)).2 = some e := h
      by_cases hw : wrap64 j = j
      · rw [if_neg (show ¬ wrap64 j ≠ j from by simp [hw])] at h2
        simp at h2
      · rw [if_pos hw] at h2
        simp at h2
        simp [← h2]
  case int8D =>
    rcases hp : goParseInt b 8 with e' | i <;> rw [hp] at h <;> simp at h
    subst h; rcases goParseInt_error b 8 _ hp with h' | h' <;> simp [h']
  case int16D =>
    rcases hp : goParseInt b 16 with e' | i <;> rw [hp] at h <;> simp at h
    subst h; rcases goParseInt_error b 16 _ hp with h' | h' <;> simp [h']
  case int32D =>
    rcases hp : goParseInt b 32 with e' | i <;> rw [hp] at h <;> simp at h
    subst h; rcases goParseInt_error b 32 _ hp with h' | h' <;> simp [h']
  case int64D =>
    rcases hp : goParseInt b 64 with e' | i <;> rw [hp] at h <;> simp at h
    subst h; rcases goParseInt_error b 64 _ hp with h' | h' <;> simp [h']
  case uintD =>
    rcases hp : goParseUint b 64 with e' | u <;> rw [hp] at h
    · simp at h; subst h
      rcases goParseUint_error b 64 _ hp with h' | h' <;> simp [h']
    · have h2 : (if wrapU64 u ≠ u then ((none : Option Value), some (ScanError.rangeError b))
          else (some (Value.ofNat u), none)).2 = some e := h
      by_cases hw : wrapU64 u = u
      · rw [if_neg (show ¬ wrapU64 u ≠ u from by simp [hw])] at h2
        simp at h2
      · rw [if_pos hw] at h2
        simp at h2
        simp [← h2]
  case uintptrD =>
    rcases hp : goParseUint b 64 with e' | u <;> rw [hp] at h
    · simp at h; subst h
      rcases goParseUint_error b 64 _ hp with h' | h' <;> simp [h']
    · have h2 : (if wrapU64 u ≠ u then ((none : Option Value), some (ScanError.rangeError b))
          else (some (Value.ofNat u), none)).2 = some e := h
      by_cases hw : wrapU64 u = u
      · rw [if_neg (show ¬ wrapU64 u ≠ u from by simp [hw])] at h2
        simp at h2
      · rw [if_pos hw] at h2
        simp at h2
        simp [← h2]
  case uint8D =>
    rcases hp : goParseUint b 8 with e' | u <;> rw [hp] at h <;> simp at h
    subst h; rcases goParseUint_error b 8 _ hp with h' | h' <;> simp [h']
  case uint16D =>
    rcases hp : goParseUint b 16 with e' | u <;> rw [hp] at h <;> simp at h
    subst h; rcases goParseUint_error b 16 _ hp with h' | h' <;> simp [h']
  case uint32D =>
    rcases hp : goParseUint b 32 with e' | u <;> rw [hp] at h <;> simp at h
    subst h; rcases goParseUint_error b 32 _ hp with h' | h' <;> simp [h']
  case uint64D =>
    rcases hp : goParseUint b 64 with e' | u <;> rw [hp] at h <;> simp at h
    subst h; rcases goParseUint_error b 64 _ hp with h' | h' <;> simp [h']
  case unsupported => simp at h; simp [h.symm]

/-- A minus sign is never accepted by the unsigned parser: `ParseUint`
takes no sign, and `-` is not a digit. -/
theorem goParseUint_minus (t : List Nat) (w : Nat) :
    goParseUint (45 :: t) w = .error (.syntaxError (45 :: t)) := by
  cases t with
  | nil => rfl
  | cons c2 r =>
    simp only [goParseUint, basePrefix]
    rw [if_neg (by norm_num : ¬ (45:Nat) = 48)]
    rfl

/-- For every unsigned destination, a sub-match starting with `-` fails
with the syntax error and stores nothing. -/
theorem assign_unsigned_minus (d : Dest) (t : List Nat) (s : Span)
    (hd : isUnsignedDest d = true) :
    assign d (45 :: t) s = (none, some (.syntaxError (45 :: t))) := by
  cases d <;> simp [isUnsignedDest] at hd <;>
    simp [assign, goParseUint_minus]

/-- The implementation's base selection agrees with the spec's phrasing
of it, and only the hexadecimal prefix is consumed. -/
theorem basePrefix_spec (b : List Nat) :
    (basePrefix b).1 = specBase b ∧
    (basePrefix b).2 = (if specBase b = 16 then b.drop 2 else b) := by
  match b with
  | [] => simp [basePrefix, specBase]
  | [c] =>
    by_cases h : c = 48 <;> simp [basePrefix, specBase, h]
  | c :: c2 :: r =>
    by_cases h : c = 48
    · subst h
      by_cases h2 : c2 = 120 ∨ c2 = 88
      · rcases h2 with h2 | h2 <;> subst h2 <;> simp [basePrefix, specBase]
      · push_neg at h2
        simp [basePrefix, specBase, h2.1, h2.2]
    · simp [basePrefix, specBase, h]

/-- `ParseUint` is exactly: evaluate the base-prefixed literal per the
spec, then classify — syntactically invalid literals give the invalid
number (syntax) error, magnitudes that do not fit give the range error. -/
theorem goParseUint_litVal (b : List Nat) (w : Nat) :
    goParseUint b w =
      (match parseLitNat b with
        | none => .error (.syntaxError b)
        | some v => if v < 2 ^ w then .ok v else .error (.rangeError b)) := by
  obtain ⟨h1, h2⟩ := basePrefix_spec b
  simp only [goParseUint, parseLitNat, h1, h2]

/-- Magnitude part of the signed classification. -/
theorem goParseIntCore_litVal (B digits : List Nat) (neg : Bool) (w : Nat) :
    goParseIntCore B digits neg w =
      (match parseLitNat digits with
        | none => .error (.syntaxError B)
        | some v =>
          if neg then
            (if v > 2 ^ (w - 1) then .error (.rangeError B) else .ok (-(v : Int)))
          else
            (if v ≥ 2 ^ (w - 1) then .error (.rangeError B) else .ok (v : Int))) := by
  obtain ⟨h1, h2⟩ := basePrefix_spec digits
  simp only [goParseIntCore, parseLitNat, h1, h2]

/-- `litVal` on a non-empty byte list, with the head exposed. -/
theorem litVal_cons (c : Nat) (rest : List Nat) :
    litVal (c :: rest) =
      (if c = 45 then (parseLitNat rest).map (fun v => -(Int.ofNat v))
       else if c = 43 then (parseLitNat rest).map (fun v => Int.ofNat v)
       else (parseLitNat (c :: rest)).map (fun v => Int.ofNat v)) := rfl

/-- The Nat-side range test of `ParseInt`'s unsigned magnitude agrees with
the Int-side test of the spec's classifier (non-negative value). -/
theorem signed_classify_nonneg (B : List Nat) (v w : Nat) :
    (if v ≥ 2 ^ (w - 1) then (Except.error (ScanError.rangeError B) : Except ScanError Int)
      else .ok (Int.ofNat v)) =
    (if -(2 ^ (w - 1) : Int) ≤ Int.ofNat v ∧ Int.ofNat v < (2 ^ (w - 1) : Int)
      then .ok (Int.ofNat v) else .error (.rangeError B)) := by
  have hcast : ((2 ^ (w - 1) : Nat) : Int) = (2 ^ (w - 1) : Int) := by push_cast; ring
  have hpow : (0:Int) < (2 ^ (w - 1) : Int) := by positivity
  by_cases hge : v ≥ 2 ^ (w - 1)
  · rw [if_pos hge, if_neg (by rintro ⟨hh1, hh2⟩; simp only [Int.ofNat_eq_coe] at hh2; omega)]
  · rw [if_neg hge, if_pos ⟨by simp only [Int.ofNat_eq_coe]; omega,
      by simp only [Int.ofNat_eq_coe]; omega⟩]

/-- Same, for the negated value. -/
theorem signed_classify_neg (B : List Nat) (v w : Nat) :
    (if v > 2 ^ (w - 1) then (Except.error (ScanError.rangeError B) : Except ScanError Int)
      else .ok (-(Int.ofNat v))) =
    (if -(2 ^ (w - 1) : Int) ≤ -(Int.ofNat v) ∧ -(Int.ofNat v) < (2 ^ (w - 1) : Int)
      then .ok (-(Int.ofNat v)) else .error (.rangeError B)) := by
  have hcast : ((2 ^ (w - 1) : Nat) : Int) = (2 ^ (w - 1) : Int) := by push_cast; ring
  have hpow : (0:Int) < (2 ^ (w - 1) : Int) := by positivity
  by_cases hgt : v > 2 ^ (w - 1)
  · rw [if_pos hgt, if_neg (by rintro ⟨hh1, hh2⟩; simp only [Int.ofNat_eq_coe] at hh1; omega)]
  · rw [if_neg hgt, if_pos ⟨by simp only [Int.ofNat_eq_coe]; omega,
      by simp only [Int.ofNat_eq_coe]; omega⟩]

/-- `ParseInt` is exactly: evaluate the signed base-prefixed literal per
the spec, then classify against the signed `w`-bit range. -/
theorem goParseInt_litVal (b : List Nat) (w : Nat) :
    goParseInt b w =
      (match litVal b with
        | none => .error (.syntaxError b)
        | some v =>
          if -(2 ^ (w - 1) : Int) ≤ v ∧ v < (2 ^ (w - 1) : Int) then .ok v
          else .error (.rangeError b)) := by
  cases b with
  | nil =>
    have hL : goParseInt [] w = goParseIntCore [] [] false w := rfl
    have hR : litVal [] = (parseLitNat []).map (fun v => Int.ofNat v) := rfl
    rw [hL, hR, goParseIntCore_litVal]
    rcases parseLitNat ([] : List Nat) with _ | v
    · rfl
    · exact signed_classify_nonneg [] v w
  | cons c rest =>
    have hL : goParseInt (c :: rest) w =
        (if c = 43 then goParseIntCore (c :: rest) rest false w
         else if c = 45 then goParseIntCore (c :: rest) rest true w
         else goParseIntCore (c :: rest) (c :: rest) false w) := rfl
    rw [hL, litVal_cons]
    by_cases h45 : c = 45
    · subst h45
      rw [if_neg (by norm_num : ¬ (45:Nat) = 43), if_pos rfl, if_pos rfl,
        goParseIntCore_litVal]
      rcases parseLitNat rest with _ | v
      · rfl
      · exact signed_classify_neg (45 :: rest) v w
    · by_cases h43 : c = 43
      · subst h43
        rw [if_pos rfl, if_neg (by norm_num : ¬ (43:Nat) = 45), if_pos rfl,
          goParseIntCore_litVal]
        rcases parseLitNat rest with _ | v
        · rfl
        · exact signed_classify_nonneg (43 :: rest) v w
      · rw [if_neg h43, if_neg h45, if_neg h45, if_neg h43,
          goParseIntCore_litVal]
        rcases parseLitNat (c :: rest) with _ | v
        · rfl
        · exact signed_classify_nonneg (c :: rest) v w

/-- `"false"` is already lower-case. -/
theorem map_asciiLower_falseBytes : falseBytes.map asciiLower = falseBytes := by decide

/-- `"true"` is already lower-case. -/
theorem map_asciiLower_trueBytes : trueBytes.map asciiLower = trueBytes := by decide

/-- Folded equality against a lower-case pattern is lower-casing the
candidate. -/
theorem equalFoldAscii_iff (b pat : List Nat) (hp : pat.map asciiLower = pat) :
    equalFoldAscii b pat = true ↔ b.map asciiLower = pat := by
  unfold equalFoldAscii
  rw [beq_iff_eq, hp]

/-- A singleton list is determined by its length and head. -/
theorem list_len1_eq (b : List Nat) (c : Nat) (hlen : b.length = 1)
    (hhd : b.headD 0 = c) : b = [c] := by
  cases b with
  | nil => simp at hlen
  | cons x xs =>
    cases xs with
    | nil => simp at hhd; simp [hhd]
    | cons y ys => simp at hlen

/-- `parseBool` accepts `false` for exactly `"0"` and the ASCII
case variants of `"false"`. -/
theorem parseBool_ok_false (b : List Nat) :
    parseBool b = .ok false ↔ b = [48] ∨ b.map asciiLower = falseBytes := by
  constructor
  · intro h
    unfold parseBool at h
    split_ifs at h with h1 h2 h3 h4
    · exact Or.inl (list_len1_eq b 48 h1.1 h1.2)
    · simp at h
    · exact Or.inr ((equalFoldAscii_iff _ _ map_asciiLower_falseBytes).mp h3.2)
    · simp at h
  · intro h
    rcases h with h | h
    · subst h; rfl
    · have hlen : b.length = 5 := by
        have := congrArg List.length h; simpa using this
      have hfold : equalFoldAscii b falseBytes = true := by
        rw [equalFoldAscii_iff _ _ map_asciiLower_falseBytes]; exact h
      unfold parseBool
      rw [if_neg (by rintro ⟨hl, _⟩; omega), if_neg (by rintro ⟨hl, _⟩; omega),
        if_pos ⟨hlen, hfold⟩]

/-- `parseBool` accepts `true` for exactly `"1"` and the ASCII
case variants of `"true"`. -/
theorem parseBool_ok_true (b : List Nat) :
    parseBool b = .ok true ↔ b = [49] ∨ b.map asciiLower = trueBytes := by
  constructor
  · intro h
    unfold parseBool at h
    split_ifs at h with h1 h2 h3 h4
    · simp at h
    · exact Or.inl (list_len1_eq b 49 h2.1 h2.2)
    · simp at h
    · exact Or.inr ((equalFoldAscii_iff _ _ map_asciiLower_trueBytes).mp h4.2)
  · intro h
    rcases h with h | h
    · subst h
      unfold parseBool
      rw [if_neg (by rintro ⟨_, hh⟩; simp at hh), if_pos (by constructor <;> rfl)]
    · have hlen : b.length = 4 := by
        have := congrArg List.length h; simpa using this
      have hfold : equalFoldAscii b trueBytes = true := by
        rw [equalFoldAscii_iff _ _ map_asciiLower_trueBytes]; exact h
      unfold parseBool
      rw [if_neg (by rintro ⟨hl, _⟩; omega), if_neg (by rintro ⟨hl, _⟩; omega),
        if_neg (by rintro ⟨hl, _⟩; omega), if_pos ⟨hlen, hfold⟩]

/-- Everything else is the invalid-boolean error. -/
theorem parseBool_invalid (b : List Nat)
    (h : ¬(b = [48] ∨ b = [49] ∨ b.map asciiLower = falseBytes ∨
        b.map asciiLower = trueBytes)) :
    parseBool b = .error (.invalidBool b) := by
  push_neg at h
  obtain ⟨h0, h1, hf, ht⟩ := h
  have hb1 : ¬(b.length = 1 ∧ b.headD 0 = 48) := by
    rintro ⟨hl, hh⟩; exact h0 (list_len1_eq b 48 hl hh)
  have hb2 : ¬(b.length = 1 ∧ b.headD 0 = 49) := by
    rintro ⟨hl, hh⟩; exact h1 (list_len1_eq b 49 hl hh)
  have hb3 : ¬(b.length = 5 ∧ equalFoldAscii b falseBytes = true) := by
    rintro ⟨hl, hh⟩
    exact hf ((equalFoldAscii_iff _ _ map_asciiLower_falseBytes).mp hh)
  have hb4 : ¬(b.length = 4 ∧ equalFoldAscii b trueBytes = true) := by
    rintro ⟨hl, hh⟩
    exact ht ((equalFoldAscii_iff _ _ map_asciiLower_trueBytes).mp hh)
  unfold parseBool
  rw [if_neg hb1, if_neg hb2, if_neg hb3, if_neg hb4]

/-- C1 (counterexample): a call whose only capture group is absent and
whose destination is a string cell — a non-discard destination — does
not fail: it succeeds and stores the empty string (pattern `(a)?b`
against `"b"` gives offset pairs `[(0,1), (-1,-1)]`). -/
theorem scan_absent_nondiscard_cex :
    Scan (fun _ => some [(0, 1), (-1, -1)]) [98] [Dest.str] =
      ([some (Value.ofStr [])], none) ∧
    (Scan (fun _ => some [(0, 1), (-1, -1)]) [98] [Dest.str]).2 = none := by
  constructor <;> rfl

/-- C1 (amended): on an absent offset pair the engine substitutes the
empty sub-match.  The discard marker is a no-op and processing continues
with the next destination; numeric destinations then fail the call (the
empty literal is invalid, as in the spec's `(\w+):((\d+))?` example), but
string, byte and span destinations succeed, storing the empty value (the
span cell stores the sentinel offsets). -/
theorem scan_absent_policy (input : List Nat) (s : Span) :
    (∀ b : List Nat, assign .discard b s = (none, none)) ∧
    scanLoop [98] [(-1, -1), (0, 1)] [Dest.discard, Dest.str] =
      ([none, some (Value.ofStr [98])], none) ∧
    (assign .intD [] s = (none, some (.syntaxError [])) ∧
      assign .int8D [] s = (none, some (.syntaxError [])) ∧
      assign .int16D [] s = (none, some (.syntaxError [])) ∧
      assign .int32D [] s = (none, some (.syntaxError [])) ∧
      assign .int64D [] s = (none, some (.syntaxError [])) ∧
      assign .uintD [] s = (none, some (.syntaxError [])) ∧
      assign .uintptrD [] s = (none, some (.syntaxError [])) ∧
      assign .uint8D [] s = (none, some (.syntaxError [])) ∧
      assign .uint16D [] s = (none, some (.syntaxError [])) ∧
      assign .uint32D [] s = (none, some (.syntaxError [])) ∧
      assign .uint64D [] s = (none, some (.syntaxError []))) ∧
    assign .str [] s = (some (.ofStr []), none) ∧
    assign .bytes [] s = (some (.ofBytes []), none) ∧
    assign .span [] s = (some (.ofSpan s), none) ∧
    Scan (fun _ => some [(0, 5), (0, 4), (-1, -1), (-1, -1)])
        [104, 111, 115, 116, 58] [Dest.str, Dest.discard, Dest.uint32D] =
      ([some (Value.ofStr [104, 111, 115, 116]), none, none],
        some (.syntaxError [])) := by
  refine ⟨fun b => rfl, by decide,
    ⟨rfl, rfl, rfl, rfl, rfl, rfl, rfl, rfl, rfl, rfl, rfl⟩,
    rfl, rfl, rfl, by decide⟩

/-- C2: with `G+1` offset pairs available (whole match plus `G` groups)
and `D` destinations, `D > G` fails with the insufficient-matches error —
reporting `G` available against `D` requested — before any destination is
touched, and `D ≤ G` proceeds to the per-destination loop. -/
theorem scan_arity (ms : List (Int × Int)) (input : List Nat) (out : List Dest)
    (hms : 1 ≤ ms.length) :
    (ms.length - 1 < out.length →
      scanMatches (some ms) input out =
        (out.map (fun _ => none),
          some (.insufficientMatches (ms.length - 1) out.length))) ∧
    (out.length ≤ ms.length - 1 →
      scanMatches (some ms) input out = scanLoop input ms.tail out) := by
  constructor
  · intro h
    simp only [scanMatches]
    rw [if_pos (by omega)]
  · intro h
    simp only [scanMatches]
    rw [if_neg (by omega)]

/-- Witness for C2 at a concrete call: one capture group... zero groups
beyond the whole match, two destinations requested. -/
theorem scan_arity_witness :
    scanMatches (some [((0:Int), (1:Int))]) [97] [Dest.discard, Dest.discard] =
      ([none, none], some (.insufficientMatches 0 2)) := by
  have h := (scan_arity [((0:Int), (1:Int))] [97] [Dest.discard, Dest.discard]
    (by norm_num)).1 (by norm_num)
  simpa using h

/-- C5: a boolean destination accepts exactly `"0"`, `"1"` and the ASCII
case-insensitive forms of `"false"`/`"true"`, storing the corresponding
value, and every other sub-match fails with the invalid-boolean error. -/
theorem parseBool_charact (b : List Nat) :
    (parseBool b = .ok false ↔ b = [48] ∨ b.map asciiLower = falseBytes) ∧
    (parseBool b = .ok true ↔ b = [49] ∨ b.map asciiLower = trueBytes) ∧
    (¬(b = [48] ∨ b = [49] ∨ b.map asciiLower = falseBytes ∨
        b.map asciiLower = trueBytes) →
      parseBool b = .error (.invalidBool b)) :=
  ⟨parseBool_ok_false b, parseBool_ok_true b, parseBool_invalid b⟩

/-- Witness for C5: `"2"` is not a boolean literal. -/
theorem parseBool_charact_witness :
    parseBool [50] = .error (.invalidBool [50]) :=
  (parseBool_charact [50]).2.2 (by decide)

/-- C9: the string entry point is the byte entry point on the string's
bytes — same result, same destination writes, no independent behavior. -/
theorem scanString_delegates (re : Pattern) (input : GoString) (out : List Dest) :
    ScanString re input out = Scan re (goStringBytes input) out ∧
    (ScanString re input out).1 = (Scan re (goStringBytes input) out).1 ∧
    (ScanString re input out).2 = (Scan re (goStringBytes input) out).2 :=
  ⟨rfl, rfl, rfl⟩

/-- C8: the call returns `NotFound` exactly when the matcher reports no
match; in that case it returns immediately, before any destination cell
is written, as a normal returned error. -/
theorem scan_notfound (re : Pattern) (input : List Nat) (out : List Dest) :
    (re input = none →
      Scan re input out = (out.map (fun _ => none), some .notFound)) ∧
    ((Scan re input out).2 = some .notFound ↔ re input = none) := by
  constructor
  · intro h
    simp [Scan, scanMatches, h]
  · constructor
    · intro h
      rcases hre : re input with _ | ms
      · rfl
      · exfalso
        simp only [Scan, hre, scanMatches] at h
        split at h
        · simp at h
        · obtain ⟨k, p, d, hk, hp, hd, hke, -, -⟩ :=
            scanLoop_err input out ms.tail ScanError.notFound h
          simp only [step] at hke
          rcases assign_err_shape d _ _ _ hke with h' | h' | h' | ⟨code, h'⟩ <;>
            simp at h'
    · intro h
      simp [Scan, scanMatches, h]

/-- Witness for C8 at a concrete non-matching call. -/
theorem scan_notfound_witness :
    Scan (fun _ => none) [97] [Dest.str, Dest.intD] =
      ([none, none], some ScanError.notFound) := by
  have h := (scan_notfound (fun _ => none) [97] [Dest.str, Dest.intD]).1 rfl
  simpa using h

/-- C10: for every unsigned integer destination, a sub-match beginning
with a minus sign fails with the invalid-number (syntax) error and stores
nothing; at the call level, a successful loop never contains such a
position, and whenever one occurs the loop fails and that cell stays
unwritten — a negative value is never wrapped modulo `2^w`. -/
theorem scan_unsigned_minus_rejected (input : List Nat) :
    (∀ (d : Dest) (t : List Nat) (s : Span), isUnsignedDest d = true →
      assign d (45 :: t) s = (none, some (.syntaxError (45 :: t)))) ∧
    (∀ (ms : List (Int × Int)) (ds : List Dest) (i : Nat) (p : Int × Int)
        (d : Dest) (t : List Nat),
      ms.get? i = some p → ds.get? i = some d → isUnsignedDest d = true →
      (if p.1 > -1 ∧ p.2 ≥ p.1 then subslice input p.1 p.2 else []) = 45 :: t →
      (scanLoop input ms ds).2 ≠ none ∧
        (scanLoop input ms ds).1.get? i = some none) := by
  refine ⟨fun d t s hd => assign_unsigned_minus d t s hd, ?_⟩
  intro ms ds i p d t hp hd hud hsub
  have hilen : i < ds.length := by
    by_contra hcon
    rw [List.get?_eq_none.mpr (by omega)] at hd
    exact absurd hd (by simp)
  have hstep2 : (step input p d).2 = some (.syntaxError (45 :: t)) := by
    simp only [step, hsub]
    rw [assign_unsigned_minus d t _ hud]
  constructor
  · intro hnone
    have := (scanLoop_ok input ds ms hnone i p d hp hd).1
    rw [hstep2] at this
    exact absurd this (by simp)
  · rcases he : (scanLoop input ms ds).2 with _ | e
    · exact absurd ((scanLoop_ok input ds ms he i p d hp hd).1)
        (by rw [hstep2]; simp)
    · obtain ⟨k, q, d', hk, hq, hd', hke, hbefore, hafter⟩ :=
        scanLoop_err input ds ms e he
      by_cases hik : i < k
      · have hb := (hbefore i p d hik hp hd).1
        rw [hstep2] at hb
        exact absurd hb (by simp)
      · exact hafter i (by omega) hilen

/-- Witness for C10: `"-1"` into a `*uint8`. -/
theorem scan_unsigned_minus_rejected_witness :
    assign .uint8D [45, 49] ⟨0, 2⟩ = (none, some (.syntaxError [45, 49])) :=
  (scan_unsigned_minus_rejected []).1 .uint8D [49] ⟨0, 2⟩ (by decide)

/-- C3: processing is one in-order pass with early exit.  With
destinations `[A, B]` where `A`'s step succeeds and `B`'s fails, `A`'s
cell is written and the call returns `B`'s error; with `[B, A]`, `A`'s
cell is never written.  In general, a failing loop has a first failing
position: every earlier destination keeps the value its own step wrote,
the returned error is that position's own, and every cell from the
failing position on is untouched. -/
theorem scan_short_circuit (input : List Nat) :
    (∀ (p0 p1 p2 : Int × Int) (A B : Dest) (wA : Value) (eB eB' : ScanError),
      step input p1 A = (some wA, none) →
      step input p2 B = (none, some eB) →
      step input p1 B = (none, some eB') →
      scanMatches (some [p0, p1, p2]) input [A, B] = ([some wA, none], some eB) ∧
      scanMatches (some [p0, p1, p2]) input [B, A] = ([none, none], some eB')) ∧
    (∀ (ms : List (Int × Int)) (ds : List Dest) (e : ScanError),
      (scanLoop input ms ds).2 = some e →
      ∃ k p d, k < ds.length ∧ ms.get? k = some p ∧ ds.get? k = some d ∧
        (step input p d).2 = some e ∧
        (∀ (i : Nat) (q : Int × Int) (d' : Dest), i < k →
          ms.get? i = some q → ds.get? i = some d' →
          (step input q d').2 = none ∧
            (scanLoop input ms ds).1.get? i = some (step input q d').1) ∧
        (∀ i : Nat, k ≤ i → i < ds.length →
          (scanLoop input ms ds).1.get? i = some none)) := by
  constructor
  · intro p0 p1 p2 A B wA eB eB' hA hB hB'
    constructor
    · simp only [scanMatches]
      rw [if_neg (by simp)]
      simp [scanLoop, hA, hB]
    · simp only [scanMatches]
      rw [if_neg (by simp)]
      simp [scanLoop, hB']
  · intro ms ds e h
    exact scanLoop_err input ds ms e h

/-- Witness for C3: input `"a:x"`, groups `(0,1)` and `(2,3)`, a string
destination (always succeeds) and an int destination (fails on `"a"` and
on `"x"`). -/
theorem scan_short_circuit_witness :
    scanMatches (some [((0:Int), (3:Int)), (0, 1), (2, 3)]) [97, 58, 120]
        [Dest.str, Dest.intD] =
      ([some (Value.ofStr [97]), none], some (.syntaxError [120])) ∧
    scanMatches (some [((0:Int), (3:Int)), (0, 1), (2, 3)]) [97, 58, 120]
        [Dest.intD, Dest.str] =
      ([none, none], some (.syntaxError [97])) := by
  have h := (scan_short_circuit [97, 58, 120]).1 (0, 3) (0, 1) (2, 3) .str .intD
    (Value.ofStr [97]) (.syntaxError [120]) (.syntaxError [97])
    (by decide) (by decide) (by decide)
  exact ⟨h.1, h.2⟩

/-- C7: the discard marker never fails, whatever the sub-match (the
absent case included); replacing one destination of a successful run by
discard keeps the run successful, blanks only that cell and leaves every
other destination's outcome unchanged; the replacement never changes the
cells written before its position; and if the loop already failed before
that position, the replacement changes nothing at all. -/
theorem scan_discard_transparent (input : List Nat) :
    (∀ (b : List Nat) (s : Span), assign .discard b s = (none, none)) ∧
    (∀ (ms : List (Int × Int)) (ds : List Dest) (j : Nat),
      (scanLoop input ms ds).2 = none →
      scanLoop input ms (ds.set j .discard) =
        ((scanLoop input ms ds).1.set j none, none)) ∧
    (∀ (ms : List (Int × Int)) (ds : List Dest) (j : Nat) (d' : Dest),
      (scanLoop input ms (ds.set j d')).1.take j =
        (scanLoop input ms ds).1.take j) ∧
    (∀ (ms : List (Int × Int)) (ds : List Dest) (j : Nat) (e : ScanError),
      (scanLoop input ms (ds.take j)).2 = some e →
      scanLoop input ms (ds.set j .discard) = scanLoop input ms ds) := by
  refine ⟨fun b s => rfl,
    fun ms ds j h => scanLoop_set_discard input ds ms j h,
    fun ms ds j d' => scanLoop_set_take input ds ms j d', ?_⟩
  intro ms ds j e h
  have h2 : (scanLoop input ms ((ds.set j .discard).take j)).2 = some e := by
    rw [take_set_self]; exact h
  rw [scanLoop_prefix_err input (ds.set j .discard) j ms e h2,
    scanLoop_prefix_err input ds j ms e h, take_set_self]
  congr 1
  congr 1
  apply map_const_congr
  simp

/-- Witness for C7: replacing the sole (string) destination of a
successful call by discard keeps success and blanks the cell. -/
theorem scan_discard_transparent_witness :
    scanLoop [97] [((0:Int), (1:Int))] [Dest.discard] = ([none], none) := by
  have h := (scan_discard_transparent [97]).2.1 [((0:Int), (1:Int))]
    [Dest.str] 0 (by decide)
  exact h

/-- C6: integer destinations parse the sub-match as a base-prefixed
literal — `"0x10"` stores 16 and `"010"` stores 8 into an int cell; the
implementation's base selection is exactly the spec's (`0x`/`0X` → 16,
leading `0` → 8, else 10); and both parsers are exactly "evaluate the
literal, then classify": invalid syntax gives the invalid-number error,
a magnitude that does not fit the width gives the out-of-range error. -/
theorem scan_base_prefix_parsing (s : Span) :
    assign .intD [48, 120, 49, 48] s = (some (.ofInt 16), none) ∧
    assign .intD [48, 49, 48] s = (some (.ofInt 8), none) ∧
    (∀ b : List Nat, (basePrefix b).1 = specBase b ∧
      (basePrefix b).2 = (if specBase b = 16 then b.drop 2 else b)) ∧
    (∀ (b : List Nat) (w : Nat),
      goParseUint b w =
        (match parseLitNat b with
          | none => .error (.syntaxError b)
          | some v => if v < 2 ^ w then .ok v else .error (.rangeError b))) ∧
    (∀ (b : List Nat) (w : Nat),
      goParseInt b w =
        (match litVal b with
          | none => .error (.syntaxError b)
          | some v =>
            if -(2 ^ (w - 1) : Int) ≤ v ∧ v < (2 ^ (w - 1) : Int) then .ok v
            else .error (.rangeError b))) :=
  ⟨rfl, rfl, basePrefix_spec, goParseUint_litVal, goParseInt_litVal⟩

/-- C4 (counterexample): for the unsigned 8-bit destination, the decimal
text of `-1` — one unit below the representable range — fails with the
invalid-number (syntax) error, not with the out-of-range error. -/
theorem scan_roundtrip_cex :
    intToDec (-1) = [45, 49] ∧
    assign .uint8D (intToDec (-1)) ⟨0, 2⟩ =
      (none, some (.syntaxError [45, 49])) ∧
    ScanError.syntaxError [45, 49] ≠ ScanError.rangeError [45, 49] := by
  have habs : ((-1 : Int)).natAbs = 1 := by decide
  have h1 : natToDec 1 = [49] := rfl
  have h2 : intToDec (-1) = [45, 49] := by
    rw [intToDec_neg _ (by norm_num), habs, h1]
  refine ⟨h2, ?_, by decide⟩
  rw [h2]
  decide

/-- C4 (amended): for every integer destination, scanning the decimal
text of any representable value stores back that value; the text of the
value one unit above the maximum fails with the out-of-range error, and
for the signed destinations so does one unit below the minimum; for the
unsigned destinations the text of `-1` instead fails with the
invalid-number (syntax) error (see the counterexample). -/
theorem scan_numeric_roundtrip (s : Span) :
    (∀ i : Int, -(2 ^ 63 : Int) ≤ i → i < 2 ^ 63 →
      assign .intD (intToDec i) s = (some (.ofInt i), none) ∧
      assign .int64D (intToDec i) s = (some (.ofInt i), none)) ∧
    (∀ i : Int, -(2 ^ 7 : Int) ≤ i → i < 2 ^ 7 →
      assign .int8D (intToDec i) s = (some (.ofInt i), none)) ∧
    (∀ i : Int, -(2 ^ 15 : Int) ≤ i → i < 2 ^ 15 →
      assign .int16D (intToDec i) s = (some (.ofInt i), none)) ∧
    (∀ i : Int, -(2 ^ 31 : Int) ≤ i → i < 2 ^ 31 →
      assign .int32D (intToDec i) s = (some (.ofInt i), none)) ∧
    (∀ v : Nat, v < 2 ^ 64 →
      assign .uintD (natToDec v) s = (some (.ofNat v), none) ∧
      assign .uintptrD (natToDec v) s = (some (.ofNat v), none) ∧
      assign .uint64D (natToDec v) s = (some (.ofNat v), none)) ∧
    (∀ v : Nat, v < 2 ^ 8 →
      assign .uint8D (natToDec v) s = (some (.ofNat v), none)) ∧
    (∀ v : Nat, v < 2 ^ 16 →
      assign .uint16D (natToDec v) s = (some (.ofNat v), none)) ∧
    (∀ v : Nat, v < 2 ^ 32 →
      assign .uint32D (natToDec v) s = (some (.ofNat v), none)) ∧
    (assign .int8D (intToDec 128) s = (none, some (.rangeError (intToDec 128))) ∧
      assign .int16D (intToDec 32768) s = (none, some (.rangeError (intToDec 32768))) ∧
      assign .int32D (intToDec 2147483648) s =
        (none, some (.rangeError (intToDec 2147483648))) ∧
      assign .intD (intToDec 9223372036854775808) s =
        (none, some (.rangeError (intToDec 9223372036854775808))) ∧
      assign .int64D (intToDec 9223372036854775808) s =
        (none, some (.rangeError (intToDec 9223372036854775808)))) ∧
    (assign .int8D (intToDec (-129)) s = (none, some (.rangeError (intToDec (-129)))) ∧
      assign .int16D (intToDec (-32769)) s =
        (none, some (.rangeError (intToDec (-32769)))) ∧
      assign .int32D (intToDec (-2147483649)) s =
        (none, some (.rangeError (intToDec (-2147483649)))) ∧
      assign .intD (intToDec (-9223372036854775809)) s =
        (none, some (.rangeError (intToDec (-9223372036854775809)))) ∧
      assign .int64D (intToDec (-9223372036854775809)) s =
        (none, some (.rangeError (intToDec (-9223372036854775809))))) ∧
    (assign .uint8D (natToDec 256) s = (none, some (.rangeError (natToDec 256))) ∧
      assign .uint16D (natToDec 65536) s =
        (none, some (.rangeError (natToDec 65536))) ∧
      assign .uint32D (natToDec 4294967296) s =
        (none, some (.rangeError (natToDec 4294967296))) ∧
      assign .uintD (natToDec 18446744073709551616) s =
        (none, some (.rangeError (natToDec 18446744073709551616))) ∧
      assign .uintptrD (natToDec 18446744073709551616) s =
        (none, some (.rangeError (natToDec 18446744073709551616))) ∧
      assign .uint64D (natToDec 18446744073709551616) s =
        (none, some (.rangeError (natToDec 18446744073709551616)))) := by
  refine ⟨?_, ?_, ?_, ?_, ?_, ?_, ?_, ?_, ?_, ?_, ?_⟩
  · intro i h1 h2
    have hp := goParseInt_roundtrip i 64 h1 h2
    have hw : wrap64 i = i := wrap64_eq i h1 h2
    exact ⟨by simp [assign, hp, hw], by simp [assign, hp]⟩
  · intro i h1 h2
    have hp := goParseInt_roundtrip i 8 h1 h2
    simp [assign, hp]
  · intro i h1 h2
    have hp := goParseInt_roundtrip i 16 h1 h2
    simp [assign, hp]
  · intro i h1 h2
    have hp := goParseInt_roundtrip i 32 h1 h2
    simp [assign, hp]
  · intro v hv
    have hp := goParseUint_roundtrip v 64 hv
    have hw : wrapU64 v = v := wrapU64_eq v hv
    exact ⟨by simp [assign, hp, hw], by simp [assign, hp, hw], by simp [assign, hp]⟩
  · intro v hv
    have hp := goParseUint_roundtrip v 8 hv
    simp [assign, hp]
  · intro v hv
    have hp := goParseUint_roundtrip v 16 hv
    simp [assign, hp]
  · intro v hv
    have hp := goParseUint_roundtrip v 32 hv
    simp [assign, hp]
  · have h8 := goParseInt_over 8
    have h16 := goParseInt_over 16
    have h32 := goParseInt_over 32
    have h64 := goParseInt_over 64
    norm_num at h8 h16 h32 h64
    exact ⟨by simp [assign, h8], by simp [assign, h16], by simp [assign, h32],
      by simp [assign, h64], by simp [assign, h64]⟩
  · have h8 := goParseInt_under 8
    have h16 := goParseInt_under 16
    have h32 := goParseInt_under 32
    have h64 := goParseInt_under 64
    norm_num at h8 h16 h32 h64
    exact ⟨by simp [assign, h8], by simp [assign, h16], by simp [assign, h32],
      by simp [assign, h64], by simp [assign, h64]⟩
  · have h8 := goParseUint_over 8
    have h16 := goParseUint_over 16
    have h32 := goParseUint_over 32
    have h64 := goParseUint_over 64
    norm_num at h8 h16 h32 h64
    exact ⟨by simp [assign, h8], by simp [assign, h16], by simp [assign, h32],
      by simp [assign, h64], by simp [assign, h64], by simp [assign, h64]⟩

/-- Witness for C4 at the signed 8-bit extremes. -/
theorem scan_numeric_roundtrip_witness :
    assign .int8D (intToDec (-128)) ⟨0, 4⟩ = (some (.ofInt (-128)), none) := by
  have h := (scan_numeric_roundtrip ⟨0, 4⟩).2.1 (-128) (by norm_num) (by norm_num)
  exact h
